import Mathlib

/-!
Shallow embedding of the `chess-move-gen` repository's source
(`src/types.rs` and `src/tests/tools.rs`) and proofs of the spec's claims
about it.

Machine integers (`u8`, `u32`) are modelled as `Nat`; every arithmetic
operation performed by the source stays within the range of its Rust type
on the inputs where it is executed, so no wraparound modelling is needed
(this is checked at each definition).  Rust functions that can panic
(an `unwrap` of `None`, a failed `debug_assert`) are modelled as
`Option`-returning functions where `none` is the panic.
-/

namespace ChessMoveGen

/-- The `Color` type of the external `board_game_traits` crate:
`{White, Black}`. -/
inductive Color where
  | White : Color
  | Black : Color
deriving DecidableEq, Repr, Fintype

/-- The `PieceType` enum of `src/types.rs` with its source discriminants
0..6. -/
inductive PieceType where
  | Empty : PieceType
  | Pawn : PieceType
  | Knight : PieceType
  | Bishop : PieceType
  | Rook : PieceType
  | Queen : PieceType
  | King : PieceType
deriving DecidableEq, Repr, Fintype

/-- The discriminant of a `PieceType` (`self as u32` in the source). -/
def PieceType.disc : PieceType → Nat
  | .Empty => 0
  | .Pawn => 1
  | .Knight => 2
  | .Bishop => 3
  | .Rook => 4
  | .Queen => 5
  | .King => 6

/-- The `unsafe mem::transmute(disc as u8)` of `PieceType::from_disc`,
written as a total function: on 0..6 it is the inverse of
`PieceType.disc`; any other input is undefined behaviour in the source and
never reached through the guarded call sites embedded below. -/
def transmuteToPieceType : Nat → PieceType
  | 0 => .Empty
  | 1 => .Pawn
  | 2 => .Knight
  | 3 => .Bishop
  | 4 => .Rook
  | 5 => .Queen
  | 6 => .King
  | _ => .Empty

/-- Embeds `PieceType::from_disc` (src/types.rs lines 55-61). -/
def PieceType.from_disc (disc : Nat) : Option PieceType :=
  if disc > 6 then none else some (transmuteToPieceType disc)

/-- Embeds `PieceType::value` (material weight; the source returns `f32`,
but only ever integral values, so `Int` represents them exactly). -/
def PieceType.value : PieceType → Int
  | .Pawn => 1
  | .Knight => 3
  | .Bishop => 3
  | .Rook => 5
  | .Queen => 9
  | .King => 100
  | .Empty => 0

/-- Embeds `PieceType::letter` (src/types.rs lines 31-41). -/
def PieceType.letter : PieceType → Char
  | .Empty => ' '
  | .Pawn => 'P'
  | .Knight => 'N'
  | .Bishop => 'B'
  | .Rook => 'R'
  | .Queen => 'Q'
  | .King => 'K'

/-- Embeds `PieceType::from_letter` (src/types.rs lines 42-53). -/
def PieceType.from_letter (ch : Char) : Option PieceType :=
  if ch = ' ' then some .Empty
  else if ch = 'P' then some .Pawn
  else if ch = 'N' then some .Knight
  else if ch = 'B' then some .Bishop
  else if ch = 'R' then some .Rook
  else if ch = 'Q' then some .Queen
  else if ch = 'K' then some .King
  else none

/-- The `Piece` enum of `src/types.rs` with its source discriminants
0, 2, 3, ..., 13 (1 is deliberately unused). -/
inductive Piece where
  | Empty : Piece
  | WhitePawn : Piece
  | BlackPawn : Piece
  | WhiteKnight : Piece
  | BlackKnight : Piece
  | WhiteBishop : Piece
  | BlackBishop : Piece
  | WhiteRook : Piece
  | BlackRook : Piece
  | WhiteQueen : Piece
  | BlackQueen : Piece
  | WhiteKing : Piece
  | BlackKing : Piece
deriving DecidableEq, Repr, Fintype

/-- The discriminant of a `Piece` (`self as u32` in the source). -/
def Piece.disc : Piece → Nat
  | .Empty => 0
  | .WhitePawn => 2
  | .BlackPawn => 3
  | .WhiteKnight => 4
  | .BlackKnight => 5
  | .WhiteBishop => 6
  | .BlackBishop => 7
  | .WhiteRook => 8
  | .BlackRook => 9
  | .WhiteQueen => 10
  | .BlackQueen => 11
  | .WhiteKing => 12
  | .BlackKing => 13

/-- The `unsafe mem::transmute::<u8, Piece>` of `Piece::from_type_color`,
written as a total function: on the valid discriminants
{0, 2, ..., 13} it is the inverse of `Piece.disc`; any other input is
undefined behaviour in the source and never reached through the call
sites embedded below. -/
def transmuteToPiece : Nat → Piece
  | 0 => .Empty
  | 2 => .WhitePawn
  | 3 => .BlackPawn
  | 4 => .WhiteKnight
  | 5 => .BlackKnight
  | 6 => .WhiteBishop
  | 7 => .BlackBishop
  | 8 => .WhiteRook
  | 9 => .BlackRook
  | 10 => .WhiteQueen
  | 11 => .BlackQueen
  | 12 => .WhiteKing
  | 13 => .BlackKing
  | _ => .Empty

/-- Embeds `Piece::from_type_color` (src/types.rs lines 129-140): White
shifts the kind discriminant left by one, Black additionally sets the low
bit. -/
def Piece.from_type_color (piece_type : PieceType) (color : Color) : Piece :=
  if piece_type = PieceType.Empty then Piece.Empty
  else
    match color with
    | .White => transmuteToPiece (piece_type.disc <<< 1)
    | .Black => transmuteToPiece ((piece_type.disc <<< 1) + 1)

/-- Embeds `Piece::piece_type` (src/types.rs lines 152-154):
`transmute((self as u32 >> 1) as u8)`. -/
def Piece.piece_type (p : Piece) : PieceType :=
  transmuteToPieceType (p.disc >>> 1)

/-- Embeds `Piece::color` (src/types.rs lines 155-166). -/
def Piece.color (p : Piece) : Option Color :=
  match p with
  | Piece.Empty => none
  | _ => if p.disc % 2 = 0 then some .White else some .Black

/-- Embeds `Piece::is_empty`. -/
def Piece.is_empty (p : Piece) : Bool :=
  p = Piece.Empty

/-- Rust `char::to_ascii_uppercase`: subtracts 32 on `a..z`, identity
elsewhere. -/
def toAsciiUppercase (c : Char) : Char :=
  if 'a' ≤ c ∧ c ≤ 'z' then Char.ofNat (c.toNat - 32) else c

/-- Rust `char::to_ascii_lowercase`: adds 32 on `A..Z`, identity
elsewhere. -/
def toAsciiLowercase (c : Char) : Char :=
  if 'A' ≤ c ∧ c ≤ 'Z' then Char.ofNat (c.toNat + 32) else c

/-- Rust `char::is_lowercase` (the Unicode `Lowercase` property),
restricted to the ASCII range: every character this development applies
it to is one of the ASCII letters and the space produced by
`PieceType.letter`, on which the Unicode property coincides with the
ASCII test. -/
def isLowercase (c : Char) : Bool :=
  'a' ≤ c ∧ c ≤ 'z'

/-- Embeds `Piece::from_letter` (src/types.rs lines 117-127). -/
def Piece.from_letter (ch : Char) : Option Piece :=
  match PieceType.from_letter (toAsciiUppercase ch), isLowercase ch with
  | some .Empty, _ => some Piece.Empty
  | some piece_type, true => some (Piece.from_type_color piece_type .Black)
  | some piece_type, false => some (Piece.from_type_color piece_type .White)
  | none, _ => none

/-- The single character written by `impl fmt::Display for Piece`
(src/types.rs lines 103-114): the kind's letter, lowercased when the
color is Black, with `color().unwrap_or(White)` for the Empty piece. -/
def Piece.displayChar (p : Piece) : Char :=
  match p.color.getD .White with
  | .White => p.piece_type.letter
  | .Black => toAsciiLowercase p.piece_type.letter

/-- The error kind of the external `pgn_traits::pgn` crate used by
`Square::from_alg`; only `ParseError` is reachable from this source. -/
inductive ErrorKind where
  | ParseError : ErrorKind
deriving DecidableEq, Repr

/-- Embeds `pgn::Error`: a kind plus the description string built at the
call site (`pgn::Error::new(kind, desc)`). -/
structure PgnError where
  kind : ErrorKind
  desc : String
deriving DecidableEq, Repr

/-- The `Square` type (src/types.rs line 176): a newtype over `u8`; the claims only
ever construct values below 64, and every arithmetic step below stays
within `u8` range on the inputs where the source executes it. -/
structure Square where
  val : Nat
deriving DecidableEq, Repr

/-- Embeds `Square::file`: `self.0 & 0b0000_0111`. -/
def Square.file (s : Square) : Nat :=
  s.val &&& 7

/-- Embeds `Square::rank`: `self.0 >> 3`. -/
def Square.rank (s : Square) : Nat :=
  s.val >>> 3

/-- Embeds `Square::file_rank`. -/
def Square.file_rank (s : Square) : Nat × Nat :=
  (s.file, s.rank)

/-- The two-character string written by `impl fmt::Display for Square`
(src/types.rs lines 178-186): file as a letter from `b'a'`, and
`((rank as i8 - 8).abs() as u8 + b'0')` re-flipping the internal rank. -/
def Square.displayString (s : Square) : String :=
  let file := s.file
  let rank := s.rank
  let actual_rank := Char.ofNat (((rank : Int) - 8).natAbs + 48)
  String.mk [Char.ofNat (file + 97), actual_rank]

/-- Embeds `Square::from_alg` (src/types.rs lines 189-209).  `alg.len()` in Rust
is the UTF-8 byte length, and `chars().nth(i).unwrap()` panics when the
string has fewer than `i + 1` characters; the outer `Option` models that
panic as `none`. -/
def Square.from_alg (alg : String) : Option (Except PgnError Square) :=
  if alg.utf8ByteSize ≠ 2 then
    some (Except.error ⟨ErrorKind.ParseError, "Invalid square " ++ alg⟩)
  else
    match alg.data.get? 0, alg.data.get? 1 with
    | some file, some rank =>
      if file < 'a' ∨ file > 'h' ∨ rank < '1' ∨ rank > '8' then
        some (Except.error ⟨ErrorKind.ParseError, "Invalid square " ++ alg⟩)
      else
        let file_u8 := file.toNat - 97
        let rank_u8 := 8 - (rank.toNat - 48)
        some (Except.ok (Square.mk (rank_u8 * 8 + file_u8)))
    | _, _ => none

/-- Embeds `Square::from_ints` (src/types.rs lines 210-213):
`debug_assert!(file < 8 && rank < 8)` then `Square((rank << 3) | file)`.
The assertion is active in the debug and test profiles this crate is
exercised under; its failure is a panic, modelled as `none`. -/
def Square.from_ints (file rank : Nat) : Option Square :=
  if file < 8 ∧ rank < 8 then some (Square.mk ((rank <<< 3) ||| file))
  else none

/-- The `GameResult` enum of the external `board_game_traits` crate. -/
inductive GameResult where
  | WhiteWin : GameResult
  | BlackWin : GameResult
  | Draw : GameResult
deriving DecidableEq, Repr

/-- The `board_game_traits::board::Board` trait as `perft` consumes it:
associated state, move and reverse-move types, plus the four operations
`perft` calls.  `do_move` mutates the board and returns the reverse move
in Rust; here it returns the new state paired with the reverse move. -/
structure Board where
  State : Type
  Move : Type
  ReverseMove : Type
  game_result : State → Option GameResult
  generate_moves : State → List Move
  do_move : State → Move → State × ReverseMove
  reverse_move : State → ReverseMove → State

/-- Embeds `perft` (src/tests/tools.rs lines 5-21), with the Rust mutation of
`board` made explicit: the result pairs the returned `u64` count with the
state of the board when the function returns.  `depth` matches on
`d + 1` so the recursive call at `depth - 1` is structurally at `d`. -/
def perft (B : Board) : Nat → B.State → Nat × B.State
  | 0, s => (1, s)
  | d + 1, s =>
    if B.game_result s ≠ none then (0, s)
    else
      let moves := B.generate_moves s
      if d + 1 = 1 then (moves.length, s)
      else
        moves.foldl
          (fun acc c_move =>
            let dm := B.do_move acc.2 c_move
            let rec_result := perft B d dm.1
            (acc.1 + rec_result.1, B.reverse_move rec_result.2 dm.2))
          (0, s)

/-- Equality of `Square::from_alg` results is decidable; needed to settle
round-trip statements by evaluation. -/
instance : DecidableEq (Except PgnError Square) := fun x y =>
  match x, y with
  | .ok a, .ok b =>
    if h : a = b then Decidable.isTrue (by rw [h])
    else Decidable.isFalse (fun hc => h (by injection hc))
  | .error a, .error b =>
    if h : a = b then Decidable.isTrue (by rw [h])
    else Decidable.isFalse (fun hc => h (by injection hc))
  | .ok _, .error _ => Decidable.isFalse (fun hc => by injection hc)
  | .error _, .ok _ => Decidable.isFalse (fun hc => by injection hc)

/-- The hypothesis the spec places on `Board` implementations:
`reverse_move` applied to the reverse move returned by `do_move` exactly
restores the state `do_move` was called on. -/
def Board.ExactReversal (B : Board) : Prop :=
  ∀ (s : B.State) (m : B.Move),
    B.reverse_move (B.do_move s m).1 (B.do_move s m).2 = s

/-- A concrete `Board` instance for evaluating the `perft` theorems: the
state counts how many moves are currently applied, every position offers
two moves, no position is terminal, and the reverse move stores the prior
state so reversal is exact. -/
@[reducible] def TwoMoveBoard : Board where
  State := Nat
  Move := Unit
  ReverseMove := Nat
  game_result := fun _ => none
  generate_moves := fun _ => [(), ()]
  do_move := fun s _ => (s + 1, s)
  reverse_move := fun _ r => r

/-- A concrete `Board` instance whose every position is terminal, for
evaluating the depth-0 theorem. -/
@[reducible] def DrawnBoard : Board where
  State := Nat
  Move := Unit
  ReverseMove := Unit
  game_result := fun _ => some GameResult.Draw
  generate_moves := fun _ => []
  do_move := fun s _ => (s, ())
  reverse_move := fun s _ => s

/-- The `perft` recursion unfolded one step at a nonzero depth. -/
lemma perft_succ (B : Board) (d : Nat) (s : B.State) :
    perft B (d + 1) s =
      if B.game_result s ≠ none then (0, s)
      else
        let moves := B.generate_moves s
        if d + 1 = 1 then (moves.length, s)
        else
          moves.foldl
            (fun acc c_move =>
              let dm := B.do_move acc.2 c_move
              let rec_result := perft B d dm.1
              (acc.1 + rec_result.1, B.reverse_move rec_result.2 dm.2))
            (0, s) := by
  rw [perft]

/-- Invariant of the `perft` move loop: when every recursive call at depth
`d` returns the state it was given and reversal is exact, the loop's
accumulated state stays at the original position `s`. -/
lemma perft_foldl_state (B : Board) (hrev : B.ExactReversal) (d : Nat)
    (hd : ∀ t : B.State, (perft B d t).2 = t) (s : B.State) :
    ∀ (ms : List B.Move) (acc : Nat × B.State), acc.2 = s →
      (ms.foldl
        (fun acc c_move =>
          let dm := B.do_move acc.2 c_move
          let rec_result := perft B d dm.1
          (acc.1 + rec_result.1, B.reverse_move rec_result.2 dm.2))
        acc).2 = s := by
  intro ms
  induction ms with
  | nil => intro acc h; exact h
  | cons m ms ih =>
    intro acc h
    rw [List.foldl_cons]
    apply ih
    show B.reverse_move (perft B d (B.do_move acc.2 m).1).2 (B.do_move acc.2 m).2 = s
    rw [hd, h]
    exact hrev s m

/-- When reversal is exact, `perft` returns the board in the state it was
given, at every depth. -/
lemma perft_preserves_state (B : Board) (hrev : B.ExactReversal) :
    ∀ (d : Nat) (s : B.State), (perft B d s).2 = s := by
  intro d
  induction d with
  | zero => intro s; rfl
  | succ d ih =>
    intro s
    rw [perft_succ]
    by_cases hterm : B.game_result s ≠ none
    · rw [if_pos hterm]
    · rw [if_neg hterm]
      by_cases hone : d + 1 = 1
      · simp only [hone, if_pos]
      · simp only [hone, if_neg, ite_false]
        exact perft_foldl_state B hrev d ih s (B.generate_moves s) (0, s) rfl

/-- Count computed by the `perft` move loop: starting from an accumulator
sitting at the original position `s`, the loop adds, for each move, the
count of the recursive call on the position reached by `do_move` from
`s`. -/
lemma perft_foldl_count (B : Board) (hrev : B.ExactReversal) (d : Nat)
    (hd : ∀ t : B.State, (perft B d t).2 = t) (s : B.State) :
    ∀ (ms : List B.Move) (acc : Nat × B.State), acc.2 = s →
      (ms.foldl
        (fun acc c_move =>
          let dm := B.do_move acc.2 c_move
          let rec_result := perft B d dm.1
          (acc.1 + rec_result.1, B.reverse_move rec_result.2 dm.2))
        acc).1
      = acc.1 + (ms.map (fun m => (perft B d (B.do_move s m).1).1)).sum := by
  intro ms
  induction ms with
  | nil => intro acc h; simp
  | cons m ms ih =>
    intro acc h
    rw [List.foldl_cons]
    have hstep :
        ((fun (acc : Nat × B.State) c_move =>
          let dm := B.do_move acc.2 c_move
          let rec_result := perft B d dm.1
          (acc.1 + rec_result.1, B.reverse_move rec_result.2 dm.2)) acc m).2 = s := by
      show B.reverse_move (perft B d (B.do_move acc.2 m).1).2 (B.do_move acc.2 m).2 = s
      rw [hd, h]
      exact hrev s m
    rw [ih _ hstep]
    show acc.1 + (perft B d (B.do_move acc.2 m).1).1 + _ = _
    rw [h, List.map_cons, List.sum_cons]
    omega

/-- At depth 1 on a non-terminal position, `perft` returns the generated
move count and the unchanged state. -/
lemma perft_one (B : Board) (s : B.State) (hterm : B.game_result s = none) :
    perft B 1 s = ((B.generate_moves s).length, s) := by
  rw [perft_succ, if_neg (by simp [hterm])]
  rfl

/-- At depth `e + 2` on a non-terminal position, `perft` runs the move
loop. -/
lemma perft_two_plus (B : Board) (e : Nat) (s : B.State)
    (hterm : B.game_result s = none) :
    perft B (e + 2) s =
      (B.generate_moves s).foldl
        (fun acc c_move =>
          let dm := B.do_move acc.2 c_move
          let rec_result := perft B (e + 1) dm.1
          (acc.1 + rec_result.1, B.reverse_move rec_result.2 dm.2))
        (0, s) := by
  rw [perft_succ, if_neg (by simp [hterm])]
  rfl

/-- Claim C1: for every board and depth, `perft` satisfies the spec's
defining equations — 1 at depth 0; 0 on a terminal position; the legal
move count at depth 1; and otherwise the sum, over each generated legal
move, of `perft` on the board after `do_move` of that move at depth − 1,
the board being restored by `reverse_move` after each recursive call
(hence the exact-reversal hypothesis, under which the shared state
invariant shows each recursion starts from the original position). -/
theorem perft_defining_equations (B : Board) (hrev : B.ExactReversal)
    (s : B.State) (d : Nat) :
    (perft B 0 s).1 = 1
    ∧ (d ≠ 0 → B.game_result s ≠ none → (perft B d s).1 = 0)
    ∧ (B.game_result s = none → (perft B 1 s).1 = (B.generate_moves s).length)
    ∧ (2 ≤ d → B.game_result s = none →
        (perft B d s).1 =
          ((B.generate_moves s).map
            (fun m => (perft B (d - 1) (B.do_move s m).1).1)).sum) := by
  refine ⟨rfl, ?_, ?_, ?_⟩
  · intro hd hterm
    obtain ⟨e, rfl⟩ : ∃ e, d = e + 1 := ⟨d - 1, by omega⟩
    rw [perft_succ, if_pos hterm]
  · intro hterm
    rw [perft_one B s hterm]
  · intro h2 hterm
    obtain ⟨e, rfl⟩ : ∃ e, d = e + 2 := ⟨d - 2, by omega⟩
    rw [perft_two_plus B e s hterm]
    have hcount :=
      perft_foldl_count B hrev (e + 1)
        (perft_preserves_state B hrev (e + 1)) s
        (B.generate_moves s) (0, s) rfl
    rw [hcount]
    simp

/-- Witness for the C1 theorem on a concrete two-move board at depth 3. -/
theorem perft_defining_equations_witness :
    (perft TwoMoveBoard 3 0).1 =
      ((TwoMoveBoard.generate_moves 0).map
        (fun m => (perft TwoMoveBoard 2 (TwoMoveBoard.do_move 0 m).1).1)).sum :=
  (perft_defining_equations TwoMoveBoard (fun _ _ => rfl) 0 3).2.2.2
    (by decide) rfl

/-- Claim C2: for every board and depth, `perft` returns the board in
exactly the state it was given, provided `reverse_move` of a `do_move`
restores the prior state. -/
theorem perft_restores_board (B : Board) (hrev : B.ExactReversal)
    (d : Nat) (s : B.State) : (perft B d s).2 = s :=
  perft_preserves_state B hrev d s

/-- Witness for the C2 theorem on a concrete two-move board. -/
theorem perft_restores_board_witness : (perft TwoMoveBoard 2 7).2 = 7 :=
  perft_restores_board TwoMoveBoard (fun _ _ => rfl) 2 7

/-- Claim C10: `perft` at depth 0 returns 1 even on a terminal position;
the depth test precedes the terminal test. -/
theorem perft_depth_zero_terminal (B : Board) (s : B.State)
    (_hterm : B.game_result s ≠ none) : perft B 0 s = (1, s) := rfl

/-- Witness for the C10 theorem on a concrete everywhere-drawn board. -/
theorem perft_depth_zero_terminal_witness : perft DrawnBoard 0 5 = (1, 5) :=
  perft_depth_zero_terminal DrawnBoard 5 (by decide)

/-- Claim C3: every square index 0..63 survives the round trip through
the `Display` text (which re-flips the internal rank) and
`Square::from_alg`. -/
theorem square_display_from_alg_round_trip :
    ∀ i : Fin 64,
      Square.from_alg (Square.displayString ⟨i.val⟩)
        = some (Except.ok ⟨i.val⟩) := by
  decide

/-- Claim C4, the code's behaviour at the failing input: on the 1-character
2-byte string "é" the byte-length test passes, `chars().nth(1)` is `None`,
and the `unwrap` panics (modelled `none`) instead of returning the parse
error the claim requires. -/
theorem from_alg_two_byte_char_result : Square.from_alg "é" = none := by
  decide

/-- Claim C5: for every non-Empty kind and color, the compactly encoded
piece recovers both components by bit arithmetic; the Empty piece carries
no color, and building from the Empty kind yields the Empty piece. -/
theorem piece_type_color_encoding :
    (∀ k : PieceType, k ≠ PieceType.Empty → ∀ c : Color,
        (Piece.from_type_color k c).piece_type = k
        ∧ (Piece.from_type_color k c).color = some c)
    ∧ Piece.Empty.color = none
    ∧ (∀ c : Color, Piece.from_type_color PieceType.Empty c = Piece.Empty) := by
  decide

/-- Witness for the C5 theorem at the black knight. -/
theorem piece_type_color_encoding_witness :
    (Piece.from_type_color PieceType.Knight Color.Black).piece_type
        = PieceType.Knight
    ∧ (Piece.from_type_color PieceType.Knight Color.Black).color
        = some Color.Black :=
  piece_type_color_encoding.1 PieceType.Knight (by decide) Color.Black

/-- Claim C6: `PieceType::from_disc` is an exhaustive checked decode —
`none` above 6, and below 7 the unique kind with that discriminant, so it
inverts the discriminant of every kind. -/
theorem from_disc_checked_decode :
    (∀ d : Nat, d > 6 → PieceType.from_disc d = none)
    ∧ (∀ d : Nat, d ≤ 6 →
        ∃ k : PieceType, k.disc = d ∧ PieceType.from_disc d = some k)
    ∧ (∀ k k' : PieceType, k.disc = k'.disc → k = k')
    ∧ (∀ k : PieceType, PieceType.from_disc k.disc = some k) := by
  refine ⟨?_, by decide, by decide, by decide⟩
  intro d h
  unfold PieceType.from_disc
  rw [if_pos h]

/-- Witness for the C6 theorem at discriminants 7 and 3. -/
theorem from_disc_checked_decode_witness :
    PieceType.from_disc 7 = none
    ∧ PieceType.from_disc PieceType.Bishop.disc = some PieceType.Bishop :=
  ⟨from_disc_checked_decode.1 7 (by decide),
    from_disc_checked_decode.2.2.2 PieceType.Bishop⟩

/-- Claim C7: `PieceType::letter` and `PieceType::from_letter` round-trip
over {P, N, B, R, Q, K, space}, and `from_letter` rejects every other
character. -/
theorem piece_type_letter_round_trip :
    (∀ k : PieceType, PieceType.from_letter k.letter = some k)
    ∧ (∀ ch : Char, ch ≠ ' ' → ch ≠ 'P' → ch ≠ 'N' → ch ≠ 'B' →
        ch ≠ 'R' → ch ≠ 'Q' → ch ≠ 'K' → PieceType.from_letter ch = none) := by
  refine ⟨by decide, ?_⟩
  intro ch h1 h2 h3 h4 h5 h6 h7
  simp [PieceType.from_letter, h1, h2, h3, h4, h5, h6, h7]

/-- Witness for the C7 theorem at the queen's letter and at 'x'. -/
theorem piece_type_letter_round_trip_witness :
    PieceType.from_letter PieceType.Queen.letter = some PieceType.Queen
    ∧ PieceType.from_letter 'x' = none :=
  ⟨piece_type_letter_round_trip.1 PieceType.Queen,
    piece_type_letter_round_trip.2 'x' (by decide) (by decide) (by decide)
      (by decide) (by decide) (by decide) (by decide)⟩

/-- Claim C8: every `Piece` round-trips through its displayed character;
a lowercase kind letter decodes to the Black piece, an uppercase one to
the White piece, and the space character decodes to the Empty piece. -/
theorem piece_letter_case_round_trip :
    (∀ p : Piece, Piece.from_letter p.displayChar = some p)
    ∧ (∀ k : PieceType,
        Piece.from_letter (toAsciiLowercase k.letter)
          = some (Piece.from_type_color k Color.Black))
    ∧ (∀ k : PieceType,
        Piece.from_letter k.letter
          = some (Piece.from_type_color k Color.White))
    ∧ Piece.from_letter ' ' = some Piece.Empty := by
  decide

/-- Claim C9: `Square::from_ints` with in-range coordinates builds the
square `rank * 8 + file`, recovered by `file` and `rank`; out-of-range
coordinates fail the `debug_assert` (a panic, modelled `none`) rather than
producing a truncated square. -/
theorem from_ints_spec :
    (∀ f : Nat, f < 8 → ∀ r : Nat, r < 8 →
        Square.from_ints f r = some (Square.mk (r * 8 + f))
        ∧ (Square.mk (r * 8 + f)).file = f
        ∧ (Square.mk (r * 8 + f)).rank = r)
    ∧ (∀ f r : Nat, ¬(f < 8 ∧ r < 8) → Square.from_ints f r = none) := by
  refine ⟨by decide, ?_⟩
  intro f r h
  unfold Square.from_ints
  rw [if_neg h]

/-- Witness for the C9 theorem at (file 3, rank 4) and the out-of-range
file 8. -/
theorem from_ints_spec_witness :
    Square.from_ints 3 4 = some (Square.mk 35)
    ∧ Square.from_ints 8 0 = none :=
  ⟨(from_ints_spec.1 3 (by decide) 4 (by decide)).1,
    from_ints_spec.2 8 0 (by decide)⟩

end ChessMoveGen
